import Mathlib

/-!
Verification of the session/worker orchestration gateway of ida-headless-mcp.

The Lean definitions below are a shallow embedding of the Go source:

* `internal/session/registry.go` — session registry (Create / Restore /
  FindByBinaryPath / Get / Delete / List);
* the worker manager (`Manager.Start` / `Manager.Stop` / `Manager.GetClient`
  and the per-worker monitor goroutine);
* `internal/server/cache.go` — the per-session artifact cache
  (`sessionCache`, the four `load*` functions, `fetchAllStrings`,
  `getSessionCache`, `deleteSessionCache`);
* `internal/server/server.go` — `normalizePagination` and the list-tool
  filter/slice/marshal block shared by `getFunctions`, `getImports`,
  `getExports`, `getStrings` in `internal/server/read.go`;
* `internal/server/session.go` — `openBinary` / `closeBinary`;
* `internal/server/websocket.go` — the MCP message envelope, its
  serialization, and `processReceivedMessageAndSendResponse`.

Go maps are modelled as association lists, Go slices (where the nil/non-nil
distinction is load-bearing) as `Option (List _)`, Go contexts as numbered
nodes of a parent forest, and the stdlib pieces the gateway calls but does
not define (`filepath.Clean`, `regexp.MatchString`, `json.Unmarshal` of a
frame, the worker RPCs) as explicit function parameters.
-/

namespace IdaMcp

/-! ## Association-list maps (the shape of every Go `map` in the gateway) -/

/-- Go `m[k]` read: first binding of `k`. -/
def mapLookup {α β : Type} [DecidableEq α] : List (α × β) → α → Option β
  | [], _ => none
  | (k, v) :: rest, key => if k = key then some v else mapLookup rest key

/-- Go `delete(m, k)`: drop every binding of `k`. -/
def mapErase {α β : Type} [DecidableEq α] (m : List (α × β)) (k : α) : List (α × β) :=
  m.filter (fun kv => kv.1 ≠ k)

/-- Go `m[k] = v`: replace any binding of `k` with a single fresh one. -/
def mapInsert {α β : Type} [DecidableEq α] (m : List (α × β)) (k : α) (v : β) : List (α × β) :=
  mapErase m k ++ [(k, v)]

/-! ## Pagination (internal/server/server.go lines 22-30, 414-425) -/

def defaultPageLimit : Nat := 1000

def maxPageLimit : Nat := 10000

/-- `normalizePagination` (internal/server/server.go 414-425).  Go `int`
arguments are modelled as `Int`.  Note that a limit above `maxPageLimit` is
rejected with an error — it is not capped. -/
def normalizePagination (offset limit : Int) : Except String (Int × Int) :=
  if offset < 0 then .error "offset must be >= 0"
  else
    let limit := if limit ≤ 0 then (defaultPageLimit : Int) else limit
    if limit > (maxPageLimit : Int) then .error "limit must be <= 10000"
    else .ok (offset, limit)

/-- The JSON page each list tool marshals: `{items, total, offset, count, limit}`
(plus the echoed regex, which carries no information about the slice). -/
structure ListPage (α : Type) where
  items : List α
  total : Int
  offset : Int
  count : Int
  limit : Int
deriving Repr, DecidableEq

/-- The offset-clamp/slice step of each list tool, after pagination has
been normalized to `(o, l)`: clamp the offset to the filtered total, slice
`filtered[offset:end]`, and report `total`/`count`/`limit`. -/
def slicePage {α : Type} (filtered : List α) (o l : Int) : ListPage α :=
  let total : Int := filtered.length
  let o := if o > total then total else o
  let e := if o + l > total then total else o + l
  let items := (filtered.drop o.toNat).take (e - o).toNat
  { items := items, total := total, offset := o, count := items.length, limit := l }

/-- The slicing block shared verbatim by `getFunctions`, `getImports`,
`getExports` and `getStrings` (internal/server/read.go 205-227, 297-320,
378-400, 466-486): normalize pagination, then clamp/slice/report.
`filtered` is the artifact list after regex (and module) filtering. -/
def listToolPage {α : Type} (filtered : List α) (offset limit : Int) :
    Except String (ListPage α) := do
  let (o, l) ← normalizePagination offset limit
  pure (slicePage filtered o l)

/-- The regex filter step of `getFunctions` (internal/server/read.go 190-203):
when a regex is supplied, keep the items whose name the compiled regex
matches.  `match_` stands for the compiled regex's `MatchString`. -/
def regexFilter {α : Type} (regex : String) (match_ : α → Bool) (data : List α) : List α :=
  if regex = "" then data else data.filter match_

/-! ## Go slices and the worker enumeration results

The `sessionCache` populated-entry test is `c.strings != nil`
(internal/server/cache.go 137, 147), so the nil/non-nil distinction of Go
slices is load-bearing: a Go slice is `Option (List α)` with `none` for nil. -/

def GoSlice (α : Type) : Type := Option (List α)

/-- The elements held by a slice (nil holds none). -/
def GoSlice.elems {α : Type} : GoSlice α → List α
  | none => []
  | some xs => xs

/-- Go `append(s, ys...)`: appending nothing to a nil slice leaves it nil. -/
def goAppend {α : Type} (s : GoSlice α) (ys : List α) : GoSlice α :=
  match s, ys with
  | none, [] => none
  | none, ys => some ys
  | some xs, ys => some (xs ++ ys)

/-- A decoded protobuf repeated field (`resp.Msg.GetFunctions()` etc.): an
empty enumeration decodes to a nil slice. -/
def decodeRepeated {α : Type} (xs : List α) : GoSlice α :=
  if xs.isEmpty then none else some xs

/-! ## fetchAllStrings (internal/server/cache.go 23-61)

The loader pages `GetStrings` in chunks of `defaultPageLimit`, starting at
offset 0, advancing the offset by each returned chunk's length, and stopping
as soon as a chunk is shorter than the limit.  The worker's `GetStrings`
RPC is the function parameter `w offset limit`; the recursion is driven by
fuel because termination depends on the worker paging correctly. -/

def fetchAllStringsLoop {α : Type} (w : Nat → Nat → List α) :
    Nat → GoSlice α → Nat → GoSlice α
  | 0, all, _ => all
  | fuel + 1, all, offset =>
    let chunk := w offset defaultPageLimit
    let all := goAppend all chunk
    if chunk.length < defaultPageLimit then all
    else fetchAllStringsLoop w fuel all (offset + chunk.length)

/-- `Server.fetchAllStrings`: chunked enumeration from offset 0 into one slice. -/
def fetchAllStrings {α : Type} (w : Nat → Nat → List α) (fuel : Nat) : GoSlice α :=
  fetchAllStringsLoop w fuel none 0

/-- A worker whose `GetStrings` pages correctly over the underlying list
`xs`: each request returns the window `xs[offset : offset+limit]`. -/
def pagesCorrectly {α : Type} (w : Nat → Nat → List α) (xs : List α) : Prop :=
  ∀ offset limit, w offset limit = (xs.drop offset).take limit

/-! ## The per-session cache (internal/server/cache.go)

`sessionCache` holds one optional slice per artifact kind; an entry is
treated as populated exactly when its slice is non-nil.  The `load*`
functions are modelled with the loader's outcome passed as a value (the
loader is run only in the miss branch, which is the branch that consumes
that value); the returned `Bool` is the HIT flag the cache logs. -/

structure GoStringItem where
  address : Nat
  value : String
deriving Repr, DecidableEq

structure GoFunction where
  address : Nat
  name : String
deriving Repr, DecidableEq

structure GoImport where
  module : String
  address : Nat
  name : String
  ordinal : Nat
deriving Repr, DecidableEq

structure GoExport where
  index : Nat
  ordinal : Nat
  address : Nat
  name : String
deriving Repr, DecidableEq

structure SessionCacheEntry where
  strings : GoSlice GoStringItem
  functions : GoSlice GoFunction
  imports : GoSlice GoImport
  exports : GoSlice GoExport

/-- The zero value `&sessionCache{}` allocated by `getSessionCache`. -/
def SessionCacheEntry.empty : SessionCacheEntry := ⟨none, none, none, none⟩

/-- `sessionCache.loadStrings` (cache.go 135-156): HIT iff the entry is
non-nil; on a miss run the loader and store whatever slice it returns —
including a nil slice. -/
def loadStrings (e : SessionCacheEntry) (loaderResult : Except String (GoSlice GoStringItem)) :
    Except String (GoSlice GoStringItem × Bool × SessionCacheEntry) :=
  match e.strings with
  | some data => .ok (some data, true, e)
  | none =>
    match loaderResult with
    | .error err => .error err
    | .ok data => .ok (data, false, { e with strings := data })

/-- `sessionCache.loadFunctions` (cache.go 158-179). -/
def loadFunctions (e : SessionCacheEntry) (loaderResult : Except String (GoSlice GoFunction)) :
    Except String (GoSlice GoFunction × Bool × SessionCacheEntry) :=
  match e.functions with
  | some data => .ok (some data, true, e)
  | none =>
    match loaderResult with
    | .error err => .error err
    | .ok data => .ok (data, false, { e with functions := data })

/-- `sessionCache.loadImports` (cache.go 181-202). -/
def loadImports (e : SessionCacheEntry) (loaderResult : Except String (GoSlice GoImport)) :
    Except String (GoSlice GoImport × Bool × SessionCacheEntry) :=
  match e.imports with
  | some data => .ok (some data, true, e)
  | none =>
    match loaderResult with
    | .error err => .error err
    | .ok data => .ok (data, false, { e with imports := data })

/-- `sessionCache.loadExports` (cache.go 204-225). -/
def loadExports (e : SessionCacheEntry) (loaderResult : Except String (GoSlice GoExport)) :
    Except String (GoSlice GoExport × Bool × SessionCacheEntry) :=
  match e.exports with
  | some data => .ok (some data, true, e)
  | none =>
    match loaderResult with
    | .error err => .error err
    | .ok data => .ok (data, false, { e with exports := data })

/-- The server-wide cache map, keyed by session id. -/
def ServerCache (κ : Type) : Type := List (κ × SessionCacheEntry)

/-- `Server.getSessionCache` (cache.go 227-239): return the session's entry,
allocating an empty one on first use. -/
def getSessionCache {κ : Type} [DecidableEq κ] (c : ServerCache κ) (sid : κ) :
    SessionCacheEntry × ServerCache κ :=
  match mapLookup c sid with
  | some e => (e, c)
  | none => (SessionCacheEntry.empty, mapInsert c sid SessionCacheEntry.empty)

/-- `Server.deleteSessionCache` (cache.go 241-250). -/
def deleteSessionCache {κ : Type} [DecidableEq κ] (c : ServerCache κ) (sid : κ) : ServerCache κ :=
  mapErase c sid

/-- The cache effect of `Server.makeFunction` (unnamed worker-tools file,
lines 319-321): invalidate the session cache exactly when the worker
reported success. -/
def makeFunctionCacheEffect {κ : Type} [DecidableEq κ] (success : Bool) (c : ServerCache κ)
    (sid : κ) : ServerCache κ :=
  if success then deleteSessionCache c sid else c

/-- The cache effect of a completed `Server.runAutoAnalysis`
(internal/server/session.go 425): unconditional invalidation. -/
def runAutoAnalysisCacheEffect {κ : Type} [DecidableEq κ] (c : ServerCache κ) (sid : κ) :
    ServerCache κ :=
  deleteSessionCache c sid

/-! ## The WebSocket envelope (internal/server/websocket.go 53-60)

JSON documents are modelled as trees; an envelope's payloads are opaque
subtrees (Go `json.RawMessage`).  A serialized envelope is its top-level
object: the key/value list `json.Marshal` produces in struct-field order,
honouring every field's `omitempty` tag. -/

inductive Json where
  | null : Json
  | boolean (b : Bool) : Json
  | num (n : Int) : Json
  | str (s : String) : Json
  | arr (xs : List Json) : Json
  | obj (fields : List (String × Json)) : Json
deriving Repr

/-- `WebSocketMessageEnvelopeForModelContextProtocol`: `type`, the
correlation `id` and four optional payload subtrees. -/
structure Envelope where
  type : String
  id : String
  request : Option Json
  response : Option Json
  error : Option Json
  notification : Option Json
deriving Repr

/-- `json.Marshal` of the envelope struct: fields in declaration order;
`id` and the payloads carry `omitempty`, so an empty id and absent payloads
produce no key. -/
def serializeEnvelope (e : Envelope) : List (String × Json) :=
  [("type", Json.str e.type)]
    ++ (if e.id = "" then [] else [("id", Json.str e.id)])
    ++ (match e.request with | none => [] | some j => [("request", j)])
    ++ (match e.response with | none => [] | some j => [("response", j)])
    ++ (match e.error with | none => [] | some j => [("error", j)])
    ++ (match e.notification with | none => [] | some j => [("notification", j)])

/-- The Go zero value the decoder starts from. -/
def Envelope.zero : Envelope :=
  { type := "", id := "", request := none, response := none, error := none, notification := none }

/-- `json.Unmarshal` into the envelope struct, one top-level key at a time
(later duplicates overwrite earlier ones, unknown keys are ignored, a
non-string `type`/`id` is a decode error). -/
def parseEnvelopeFields : Envelope → List (String × Json) → Option Envelope
  | acc, [] => some acc
  | acc, (k, v) :: rest =>
    if k = "type" then
      match v with
      | Json.str s => parseEnvelopeFields { acc with type := s } rest
      | _ => none
    else if k = "id" then
      match v with
      | Json.str s => parseEnvelopeFields { acc with id := s } rest
      | _ => none
    else if k = "request" then parseEnvelopeFields { acc with request := some v } rest
    else if k = "response" then parseEnvelopeFields { acc with response := some v } rest
    else if k = "error" then parseEnvelopeFields { acc with error := some v } rest
    else if k = "notification" then parseEnvelopeFields { acc with notification := some v } rest
    else parseEnvelopeFields acc rest

def parseEnvelope (fields : List (String × Json)) : Option Envelope :=
  parseEnvelopeFields Envelope.zero fields

/-! ## WebSocket frame handling (internal/server/websocket.go 260-412)

The read loop hands every text or binary frame to
`processReceivedMessageAndSendResponse`; the result of `json.Unmarshal` on
the frame bytes arrives here as an `Except` value (the error case carries
the Go parser's own message).  The handler's externally visible behaviour
is the sequence of actions below. -/

inductive WsAction where
  | enqueue (envelope : List (String × Json))
  | callMcp (payload : Option Json)
deriving Repr

/-- `sendErrorResponseToClient` (websocket.go 444-485): wrap the message in
an `{"message": ...}` payload inside a `type:"error"` envelope and enqueue
it on this connection. -/
def sendErrorResponseToClient (id msg : String) : List WsAction :=
  [WsAction.enqueue (serializeEnvelope
    { type := "error", id := id, request := none, response := none,
      error := some (Json.obj [("message", Json.str msg)]), notification := none })]

/-- `sendSuccessResponseToClient` (websocket.go 414-442). -/
def sendSuccessResponseToClient (id : String) (payload : Option Json) : List WsAction :=
  [WsAction.enqueue (serializeEnvelope
    { type := "response", id := id, request := none,
      response := payload, error := none, notification := none })]

/-- `processReceivedMessageAndSendResponse` (websocket.go 338-412).
`parseOutcome` is `json.Unmarshal`'s verdict on the frame bytes;
`mcpHandle` is the MCP server's `HandleMessage`.  A parse failure is
answered with "Failed to parse message JSON: %v" and never reaches the MCP
server; non-`request` envelopes are ignored. -/
def processReceivedMessage (parseOutcome : Except String Envelope)
    (mcpHandle : Option Json → Except String Json) : List WsAction :=
  match parseOutcome with
  | .error detail => sendErrorResponseToClient "" ("Failed to parse message JSON: " ++ detail)
  | .ok env =>
    if env.type = "request" then
      WsAction.callMcp env.request ::
        (match mcpHandle env.request with
         | .error e => sendErrorResponseToClient env.id ("MCP request processing error: " ++ e)
         | .ok resp => sendSuccessResponseToClient env.id (some resp))
    else []

inductive FrameKind where
  | text
  | binary
  | other
deriving Repr, DecidableEq

/-- The read loop's frame dispatch (websocket.go 300-327): only text and
binary frames are processed. -/
def handleFrame (kind : FrameKind) (parseOutcome : Except String Envelope)
    (mcpHandle : Option Json → Except String Json) : List WsAction :=
  if kind = FrameKind.text ∨ kind = FrameKind.binary then
    processReceivedMessage parseOutcome mcpHandle
  else []

/-! ## Go contexts and the worker's process lifetime (worker manager)

Contexts form a forest: `context.Background()` is node 0, every
`context.WithCancel(parent)` allocates a fresh node below its parent, and a
context is done once it or any ancestor has been cancelled.
`exec.CommandContext` kills the child process when its context is done, so
the worker process outlives any context that is not an ancestor of the
worker's own context. -/

structure CtxWorld where
  nextCtx : Nat
  parentOf : List (Nat × Nat)
  cancelled : List Nat

def CtxWorld.init : CtxWorld := { nextCtx := 1, parentOf := [], cancelled := [] }

/-- `context.WithCancel(parent)`. -/
def withCancel (w : CtxWorld) (parent : Nat) : Nat × CtxWorld :=
  (w.nextCtx,
   { w with nextCtx := w.nextCtx + 1, parentOf := mapInsert w.parentOf w.nextCtx parent })

/-- Calling the cancel function of context `c`. -/
def cancelCtx (w : CtxWorld) (c : Nat) : CtxWorld :=
  { w with cancelled := c :: w.cancelled }

/-- The ancestor chain of `c` (fuel-driven; parent links of a well-formed
world strictly decrease, so `c` itself is enough fuel). -/
def ancestorChain (w : CtxWorld) : Nat → Nat → List Nat
  | 0, c => [c]
  | fuel + 1, c =>
    c :: (match mapLookup w.parentOf c with
          | none => []
          | some p => ancestorChain w fuel p)

/-- `ctx.Done()` has fired: the context or one of its ancestors was cancelled. -/
def ctxDone (w : CtxWorld) (c : Nat) : Bool :=
  (ancestorChain w c c).any (fun a => decide (a ∈ w.cancelled))

/-- The worker manager's handle table `Manager.sessions`, session id ↦ the
worker's context (standing for the whole `WorkerClient` handle). -/
def MgrSessions : Type := List (String × Nat)

/-- The context creation step of `Manager.Start` (worker manager, line 68):
`workerCtx, cancel := context.WithCancel(context.Background())` — the new
context is parented to Background (node 0), never to the inbound request
context, and the handle is registered under the session id. -/
def mgrStartCtx (w : CtxWorld) (m : MgrSessions) (sessionID : String) :
    Nat × CtxWorld × MgrSessions :=
  let (workerCtx, w') := withCancel w 0
  (workerCtx, w', mapInsert m sessionID workerCtx)

/-- `Manager.GetClient` (worker manager, lines 200-208). -/
def mgrGetClientCtx (m : MgrSessions) (sessionID : String) : Option Nat :=
  mapLookup m sessionID

/-! ## The gateway state machine (registry + manager + store + cache + progress)

`internal/session/registry.go` with the `openBinary`/`closeBinary` tool
handlers of `internal/server/session.go` layered on top.  Session ids and
socket paths come from fresh UUIDs; freshness is modelled by a counter.
`filepath.Clean` is the parameter `clean` — the source applies one and the
same normalizer in `Create`, `Restore` and `FindByBinaryPath`.  Worker
RPC outcomes (`cmd.Start`/socket wait, the `OpenBinary` call, its success
flag and `has_decompiler`) are inputs of the affected steps. -/

structure Sess where
  id : Nat
  binaryPath : String
  createdAt : Nat
  lastActivity : Nat
deriving Repr, DecidableEq

/-- A live worker handle; `alive` is whether the child process is still
running (`Stop` tolerates a dead one: killing it yields `os.ErrProcessDone`,
which is ignored). -/
structure Handle where
  alive : Bool
deriving Repr, DecidableEq

structure ProgressSnap where
  stage : String
  message : String
deriving Repr, DecidableEq

structure GwState where
  nextId : Nat
  clock : Nat
  maxSessions : Nat
  sessions : List (Nat × Sess)
  binaryIndex : List (String × Nat)
  workers : List (Nat × Handle)
  startLog : List String
  store : List Nat
  cache : ServerCache Nat
  progress : List (Nat × ProgressSnap)

def GwState.init (maxSessions : Nat) : GwState :=
  { nextId := 1, clock := 0, maxSessions := maxSessions, sessions := [], binaryIndex := [],
    workers := [], startLog := [], store := [], cache := [], progress := [] }

/-- The session `Registry.Create` builds: a fresh id (UUID freshness is the
counter), the normalized path, both timestamps set to now. -/
def freshSess (s : GwState) (normPath : String) : Sess :=
  { id := s.nextId, binaryPath := normPath, createdAt := s.clock, lastActivity := s.clock }

/-- `Registry.Create` (registry.go 70-92): capacity check, fresh id,
normalized path, insert into both indices. -/
def regCreate (clean : String → String) (s : GwState) (path : String) :
    Except String (Sess × GwState) :=
  if s.sessions.length ≥ s.maxSessions then .error "max sessions reached"
  else
    let normPath := clean path
    let sess : Sess := freshSess s normPath
    .ok (sess, { s with nextId := s.nextId + 1,
                        sessions := mapInsert s.sessions sess.id sess,
                        binaryIndex := mapInsert s.binaryIndex normPath sess.id })

/-- The persisted subset of a session (registry.go `Metadata`): id, binary
path and the two timestamps (the timeout is not otherwise modelled). -/
structure Metadata where
  id : Nat
  binaryPath : String
  createdAt : Nat
  lastActivity : Nat
deriving Repr, DecidableEq

/-- `Registry.Restore` (registry.go 95-117): capacity check, duplicate-id
check, normalize the path, insert into both indices (the stale socket path
is replaced by a fresh one, not modelled here).  Note that — unlike the
`FindByBinaryPath`-then-`Create` discipline of `open_binary` — Restore
performs no binary-path dedup: restoring a metadata whose normalized path
matches a live session overwrites `binaryIndex[normPath]` while both
sessions remain in `sessions`. -/
def regRestore (clean : String → String) (s : GwState) (meta : Metadata) :
    Except String (Sess × GwState) :=
  if s.sessions.length ≥ s.maxSessions then .error "max sessions reached"
  else
    match mapLookup s.sessions meta.id with
    | some _ => .error "session already exists"
    | none =>
      let normPath := clean meta.binaryPath
      let sess : Sess :=
        { id := meta.id, binaryPath := normPath, createdAt := meta.createdAt,
          lastActivity := meta.lastActivity }
      .ok (sess, { s with sessions := mapInsert s.sessions sess.id sess,
                          binaryIndex := mapInsert s.binaryIndex normPath sess.id })

/-- `Registry.FindByBinaryPath` (registry.go 121-126).  Go stores the
session pointer in `binaryIndex` directly; here the id is resolved through
`sessions`, which agrees because `Delete` always removes a session together
with the index entry for its own path, so the index never dangles. -/
def regFindByBinaryPath (clean : String → String) (s : GwState) (path : String) : Option Sess :=
  match mapLookup s.binaryIndex (clean path) with
  | none => none
  | some i => mapLookup s.sessions i

/-- `Registry.Delete` (registry.go 137-144): remove the session and the
index entry for its path. -/
def regDelete (s : GwState) (i : Nat) : GwState :=
  match mapLookup s.sessions i with
  | none => s
  | some sess =>
    { s with sessions := mapErase s.sessions i,
             binaryIndex := mapErase s.binaryIndex sess.binaryPath }

/-- `Session.Touch` applied through the registry (registry.go 26-30). -/
def touchSession (s : GwState) (i : Nat) : GwState :=
  match mapLookup s.sessions i with
  | none => s
  | some sess =>
    { s with sessions := mapInsert s.sessions i { sess with lastActivity := s.clock } }

/-- `Manager.Start` (worker manager, 60-138): spawn the worker (the spawn
is logged in `startLog`); on socket readiness register a live handle, on
failure kill/reap the child and leave no handle behind. -/
def mgrStart (s : GwState) (sid : Nat) (binaryPath : String) (startOk : Bool) :
    Bool × GwState :=
  let s := { s with startLog := s.startLog ++ [binaryPath] }
  if startOk then (true, { s with workers := mapInsert s.workers sid { alive := true } })
  else (false, s)

/-- `Manager.Stop` (worker manager, 154-197): fails only when no handle is
registered; with a handle present it succeeds whether or not the process is
still alive (`os.ErrProcessDone` from kill/wait is tolerated) and deletes
the handle. -/
def mgrStop (s : GwState) (sid : Nat) : Except String GwState :=
  match mapLookup s.workers sid with
  | none => .error "no worker for session"
  | some _ => .ok { s with workers := mapErase s.workers sid }

/-- `Manager.GetClient` (worker manager, 200-208). -/
def mgrGetClient (s : GwState) (sid : Nat) : Option Handle :=
  mapLookup s.workers sid

/-- The worker process exits (crash or external kill) while its handle is
still registered. -/
def workerDie (s : GwState) (sid : Nat) : GwState :=
  match mapLookup s.workers sid with
  | none => s
  | some _ => { s with workers := mapInsert s.workers sid { alive := false } }

/-- The per-worker monitor goroutine (worker manager, 140-151): after the
process exits, its handle is removed from the manager's table. -/
def monitorReap (s : GwState) (sid : Nat) : GwState :=
  { s with workers := mapErase s.workers sid }

def recordProgressG (s : GwState) (sid : Nat) (p : ProgressSnap) : GwState :=
  { s with progress := mapInsert s.progress sid p }

def clearProgressG (s : GwState) (sid : Nat) : GwState :=
  { s with progress := mapErase s.progress sid }

def deleteSessionCacheG (s : GwState) (sid : Nat) : GwState :=
  { s with cache := deleteSessionCache s.cache sid }

def deleteSessionStateG (s : GwState) (sid : Nat) : GwState :=
  { s with store := s.store.filter (fun i => i ≠ sid) }

def persistSessionG (s : GwState) (sid : Nat) : GwState :=
  { s with store := sid :: s.store.filter (fun i => i ≠ sid) }

/-- `s.workers.Stop(sess.ID)` on `openBinary`'s failure paths: the returned
error is ignored there. -/
def applyStopIgnoringError (s : GwState) (sid : Nat) : GwState :=
  match mgrStop s sid with
  | .error _ => s
  | .ok s' => s'

/-- The observable outcomes of the worker spawn and the initial RPCs during
a fresh `open_binary`: socket readiness, the `OpenBinary` transport call,
the worker's success flag and the decompiler availability it reported. -/
structure OpenOutcome where
  startOk : Bool
  rpcOk : Bool
  openSuccess : Bool
  hasDecompiler : Bool
deriving Repr, DecidableEq

/-- The outcome of `open_binary` reported to the MCP client; the fields of
the reused/opened JSON payloads that the claims mention. -/
inductive OpenResult where
  | reused (sessionId : Nat) (binaryPath : String) (hasDecompiler : Bool) (createdAt : Nat)
  | opened (sessionId : Nat) (binaryPath : String) (hasDecompiler : Bool) (createdAt : Nat)
  | failed (context : String)
deriving Repr, DecidableEq

/-- The cleanup composed on `openBinary`'s post-`Create` failure paths:
`registry.Delete`, `deleteSessionCache`, `clearProgress` (session.go
117-119, 141-144, 150-153). -/
def openFailCleanup (s : GwState) (sid : Nat) : GwState :=
  clearProgressG (deleteSessionCacheG (regDelete s sid) sid) sid

/-- `Server.openBinary` (internal/server/session.go 86-186).

The reuse branch (88-103) answers from the registry: the session id, its
(normalized) stored path, `has_decompiler` hard-coded to `true`, the stored
creation time, `reused:true`; its only state change is a progress record —
in particular it does not `Touch` the session.  The fresh branch creates
the session, spawns the worker, obtains a client, performs the `OpenBinary`
RPC, persists metadata and answers with the decompiler availability the
worker reported; every failure tears down exactly what was allocated. -/
def openBinary (clean : String → String) (s : GwState) (path : String) (w : OpenOutcome) :
    OpenResult × GwState :=
  match regFindByBinaryPath clean s path with
  | some existing =>
    (.reused existing.id existing.binaryPath true existing.createdAt,
     recordProgressG s existing.id { stage := "open_binary", message := "Session reused" })
  | none =>
    match regCreate clean s path with
    | .error _ => (.failed "open_binary session creation", s)
    | .ok (sess, s₁) =>
      let s₁ := recordProgressG s₁ sess.id
        { stage := "open_binary", message := "Starting Python worker" }
      let started := mgrStart s₁ sess.id path w.startOk
      if started.1 = false then
        (.failed "open_binary worker start", openFailCleanup started.2 sess.id)
      else
        match mgrGetClient started.2 sess.id with
        | none =>
          (.failed "open_binary worker client",
           openFailCleanup (applyStopIgnoringError started.2 sess.id) sess.id)
        | some _ =>
          if w.rpcOk = false then
            (.failed "open_binary RPC call",
             openFailCleanup (applyStopIgnoringError started.2 sess.id) sess.id)
          else if w.openSuccess = false then
            (.failed "open_binary IDA analysis",
             openFailCleanup (applyStopIgnoringError started.2 sess.id) sess.id)
          else
            let s₃ := persistSessionG started.2 sess.id
            (.opened sess.id path w.hasDecompiler sess.createdAt,
             recordProgressG s₃ sess.id { stage := "ready", message := "Session ready" })

inductive CloseResult where
  | success
  | sessionNotFound
  | stopFailed
deriving Repr, DecidableEq

/-- `Server.closeBinary` (internal/server/session.go 188-209): unknown id →
`SessionNotFound`; a failing `workers.Stop` is propagated as an error *and
skips all cleanup*; otherwise registry entry, persisted metadata, cache
entry and progress snapshot are removed. -/
def closeBinary (s : GwState) (sid : Nat) : CloseResult × GwState :=
  match mapLookup s.sessions sid with
  | none => (.sessionNotFound, s)
  | some _ =>
    match mgrStop s sid with
    | .error _ => (.stopFailed, s)
    | .ok s₁ =>
      (.success,
       clearProgressG (deleteSessionCacheG (deleteSessionStateG (regDelete s₁ sid) sid) sid) sid)

/-! ## Traces of `open_binary` interleaved with non-`close_binary` tools -/

/-- An event of the traces claim C1 quantifies over: an `open_binary` call
(with the worker outcomes it observes) or any other non-`close_binary`
tool call, whose only registry effect is `session.Touch()`. -/
inductive GwEv where
  | openBin (path : String) (w : OpenOutcome)
  | tool (sid : Nat)

def gwStep (clean : String → String) (s : GwState) : GwEv → GwState
  | .openBin p w => (openBinary clean s p w).2
  | .tool sid => touchSession s sid

def gwRun (clean : String → String) : GwState → List GwEv → GwState :=
  List.foldl (gwStep clean)

/-- How many sessions `list_sessions` reports for a given (normalized)
binary path. -/
def countSessionsWithPath (s : GwState) (p : String) : Nat :=
  (s.sessions.filter (fun kv => kv.2.binaryPath = p)).length

/-- The worker manager's start-count for a binary path (spawns of workers
whose binary normalizes to the same path). -/
def startCount (clean : String → String) (s : GwState) (path : String) : Nat :=
  (s.startLog.filter (fun q => clean q = clean path)).length

/-- `startCount` phrased on an already-normalized path. -/
def startCountNorm (clean : String → String) (s : GwState) (normPath : String) : Nat :=
  (s.startLog.filter (fun q => clean q = normPath)).length

/-- Sessions of a session list holding a given binary path. -/
def countPathList (l : List (Nat × Sess)) (p : String) : Nat :=
  (l.filter (fun kv => kv.2.binaryPath = p)).length

/-- The invariant claim C1 maintains once the first `open_binary(P)` has
succeeded: `id₀` (created at time `c₀`) is the unique live session for the
normalized path `P₀`, both registry indices agree on it, and exactly one
worker was ever started for that path.  The well-formedness conjuncts
(`keysBound`, `keysNodup`) hold for every reachable state. -/
structure OpenInv (clean : String → String) (P₀ : String) (id₀ c₀ : Nat) (s : GwState) :
    Prop where
  keysBound : ∀ kv ∈ s.sessions, kv.1 < s.nextId
  keysNodup : (s.sessions.map Prod.fst).Nodup
  idBound : id₀ < s.nextId
  indexed : mapLookup s.binaryIndex P₀ = some id₀
  stored : ∃ sess, mapLookup s.sessions id₀ = some sess ∧ sess.id = id₀ ∧
    sess.binaryPath = P₀ ∧ sess.createdAt = c₀
  uniquePath : countPathList s.sessions P₀ = 1
  started : startCountNorm clean s P₀ = 1

/-! # Lemmas -/

/-! ## Association-list maps -/

theorem mapErase_cons {α β : Type} [DecidableEq α] (k' : α) (v : β) (rest : List (α × β))
    (k : α) : mapErase ((k', v) :: rest) k =
      if k' = k then mapErase rest k else (k', v) :: mapErase rest k := by
  by_cases h : k' = k <;> simp [mapErase, List.filter_cons, h]

theorem mapLookup_append {α β : Type} [DecidableEq α] (l₁ l₂ : List (α × β)) (key : α) :
    mapLookup (l₁ ++ l₂) key =
      (match mapLookup l₁ key with
       | some v => some v
       | none => mapLookup l₂ key) := by
  induction l₁ with
  | nil => simp [mapLookup]
  | cons kv rest ih =>
    obtain ⟨k, v⟩ := kv
    by_cases h : k = key <;> simp [mapLookup, h, ih]

theorem mapLookup_erase {α β : Type} [DecidableEq α] (m : List (α × β)) (k key : α) :
    mapLookup (mapErase m k) key = if key = k then none else mapLookup m key := by
  induction m with
  | nil => simp [mapLookup, mapErase]
  | cons kv rest ih =>
    obtain ⟨k', v⟩ := kv
    rw [mapErase_cons]
    by_cases hk : k' = k
    · subst hk
      by_cases hkey : key = k'
      · subst hkey
        simp [ih]
      · simp [hkey, ih, mapLookup, Ne.symm hkey]
    · by_cases hkey : key = k'
      · subst hkey
        simp [hk, mapLookup, ih, hk]
      · simp [hk, mapLookup, Ne.symm hkey, ih, hkey]

theorem mapLookup_insert {α β : Type} [DecidableEq α] (m : List (α × β)) (k key : α) (v : β) :
    mapLookup (mapInsert m k v) key = if key = k then some v else mapLookup m key := by
  unfold mapInsert
  rw [mapLookup_append, mapLookup_erase]
  by_cases h : key = k
  · simp [h, mapLookup]
  · simp only [h, if_false, mapLookup, Ne.symm h, if_neg]
    cases mapLookup m key <;> simp

theorem mapLookup_insert_self {α β : Type} [DecidableEq α] (m : List (α × β)) (k : α) (v : β) :
    mapLookup (mapInsert m k v) k = some v := by
  rw [mapLookup_insert]; simp

theorem mapLookup_insert_ne {α β : Type} [DecidableEq α] (m : List (α × β)) (k key : α) (v : β)
    (h : key ≠ k) : mapLookup (mapInsert m k v) key = mapLookup m key := by
  rw [mapLookup_insert]; simp [h]

theorem mapLookup_erase_self {α β : Type} [DecidableEq α] (m : List (α × β)) (k : α) :
    mapLookup (mapErase m k) k = none := by
  rw [mapLookup_erase]; simp

theorem mapLookup_some_mem {α β : Type} [DecidableEq α] {m : List (α × β)} {k : α} {v : β}
    (h : mapLookup m k = some v) : (k, v) ∈ m := by
  induction m with
  | nil => simp [mapLookup] at h
  | cons kv rest ih =>
    obtain ⟨k', v'⟩ := kv
    by_cases hk : k' = k
    · subst hk
      simp [mapLookup] at h
      simp [h]
    · simp [mapLookup, hk] at h
      simp [ih h]

theorem mapLookup_eq_none_of_forall {α β : Type} [DecidableEq α] {m : List (α × β)} {k : α}
    (h : ∀ kv ∈ m, kv.1 ≠ k) : mapLookup m k = none := by
  induction m with
  | nil => rfl
  | cons kv rest ih =>
    obtain ⟨k', v'⟩ := kv
    have hk : k' ≠ k := h (k', v') (by simp)
    simp only [mapLookup, if_neg hk]
    exact ih (fun kv hkv => h kv (by simp [hkv]))

theorem mapErase_eq_self_of_forall {α β : Type} [DecidableEq α] {m : List (α × β)} {k : α}
    (h : ∀ kv ∈ m, kv.1 ≠ k) : mapErase m k = m := by
  unfold mapErase
  exact List.filter_eq_self.mpr (fun kv hkv => by simp [h kv hkv])

theorem mapErase_insert_self {α β : Type} [DecidableEq α] (m : List (α × β)) (k : α) (v : β) :
    mapErase (mapInsert m k v) k = mapErase m k := by
  unfold mapInsert mapErase
  simp [List.filter_append]

theorem mem_of_mem_mapErase {α β : Type} [DecidableEq α] {m : List (α × β)} {k : α}
    {kv : α × β} (h : kv ∈ mapErase m k) : kv ∈ m :=
  List.mem_of_mem_filter h

theorem mem_mapInsert {α β : Type} [DecidableEq α] {m : List (α × β)} {k : α} {v : β}
    {kv : α × β} (h : kv ∈ mapInsert m k v) : kv ∈ m ∨ kv = (k, v) := by
  unfold mapInsert at h
  rcases List.mem_append.mp h with h' | h'
  · exact Or.inl (mem_of_mem_mapErase h')
  · simp at h'
    exact Or.inr h'

theorem keysNodup_mapErase {α β : Type} [DecidableEq α] {m : List (α × β)} (k : α)
    (h : (m.map Prod.fst).Nodup) : ((mapErase m k).map Prod.fst).Nodup := by
  have hsub : List.Sublist ((mapErase m k).map Prod.fst) (m.map Prod.fst) :=
    List.Sublist.map Prod.fst (List.filter_sublist m)
  exact List.Nodup.sublist hsub h

theorem not_mem_keys_mapErase {α β : Type} [DecidableEq α] (m : List (α × β)) (k : α) :
    k ∉ (mapErase m k).map Prod.fst := by
  intro hmem
  obtain ⟨kv, hkv, hfst⟩ := List.mem_map.mp hmem
  have := List.of_mem_filter hkv
  simp [hfst] at this

theorem keysNodup_mapInsert {α β : Type} [DecidableEq α] {m : List (α × β)} (k : α) (v : β)
    (h : (m.map Prod.fst).Nodup) : ((mapInsert m k v).map Prod.fst).Nodup := by
  unfold mapInsert
  rw [List.map_append]
  apply List.Nodup.append (keysNodup_mapErase k h) (by simp)
  intro a ha hb
  simp at hb
  rw [hb] at ha
  exact not_mem_keys_mapErase m k ha

/-! ## Session-path counting -/

theorem countPathList_cons (kv : Nat × Sess) (l : List (Nat × Sess)) (p : String) :
    countPathList (kv :: l) p =
      (if kv.2.binaryPath = p then 1 else 0) + countPathList l p := by
  by_cases h : kv.2.binaryPath = p <;> simp [countPathList, List.filter_cons, h, Nat.add_comm]

theorem countPathList_append (l₁ l₂ : List (Nat × Sess)) (p : String) :
    countPathList (l₁ ++ l₂) p = countPathList l₁ p + countPathList l₂ p := by
  simp [countPathList, List.filter_append]

theorem countPathList_mapErase_lookup {l : List (Nat × Sess)} {k : Nat} {v : Sess} (p : String)
    (hnodup : (l.map Prod.fst).Nodup) (hlk : mapLookup l k = some v) :
    countPathList (mapErase l k) p + (if v.binaryPath = p then 1 else 0) =
      countPathList l p := by
  induction l with
  | nil => simp [mapLookup] at hlk
  | cons kv rest ih =>
    obtain ⟨k', v'⟩ := kv
    rw [mapErase_cons]
    by_cases hk : k' = k
    · subst hk
      have hv : v' = v := by simpa [mapLookup] using hlk
      subst hv
      have hrest : ∀ kv ∈ rest, kv.1 ≠ k' := by
        intro kv hkv hkk
        have hmem : k' ∈ rest.map Prod.fst := List.mem_map.mpr ⟨kv, hkv, hkk⟩
        have hnot : k' ∉ rest.map Prod.fst := by
          have h' := hnodup
          simp only [List.map_cons, List.nodup_cons] at h'
          exact h'.1
        exact hnot hmem
      rw [if_pos rfl, mapErase_eq_self_of_forall hrest, countPathList_cons]
      exact Nat.add_comm _ _
    · simp only [mapLookup, if_neg hk] at hlk
      have hnodup' : (rest.map Prod.fst).Nodup := by
        simp at hnodup
        exact hnodup.2
      rw [if_neg hk, countPathList_cons, countPathList_cons]
      have := ih hnodup' hlk
      omega

theorem countPathList_mapInsert (l : List (Nat × Sess)) (k : Nat) (v : Sess) (p : String) :
    countPathList (mapInsert l k v) p =
      countPathList (mapErase l k) p + (if v.binaryPath = p then 1 else 0) := by
  unfold mapInsert
  rw [countPathList_append, countPathList_cons]
  simp [countPathList]

/-! ## Go slices -/

theorem goAppend_elems {α : Type} (s : GoSlice α) (ys : List α) :
    (goAppend s ys).elems = s.elems ++ ys := by
  cases s with
  | none => cases ys <;> simp [goAppend, GoSlice.elems]
  | some xs => simp [goAppend, GoSlice.elems]

/-! ## Cache loads on unpopulated entries -/

theorem loadStrings_not_hit {e : SessionCacheEntry} (h : e.strings = none) :
    ∀ r res, loadStrings e r = Except.ok res → res.2.1 = false := by
  intro r res hload
  cases r with
  | error err => simp [loadStrings, h] at hload
  | ok data =>
    simp [loadStrings, h] at hload
    simp [← hload]

theorem loadFunctions_not_hit {e : SessionCacheEntry} (h : e.functions = none) :
    ∀ r res, loadFunctions e r = Except.ok res → res.2.1 = false := by
  intro r res hload
  cases r with
  | error err => simp [loadFunctions, h] at hload
  | ok data =>
    simp [loadFunctions, h] at hload
    simp [← hload]

theorem loadImports_not_hit {e : SessionCacheEntry} (h : e.imports = none) :
    ∀ r res, loadImports e r = Except.ok res → res.2.1 = false := by
  intro r res hload
  cases r with
  | error err => simp [loadImports, h] at hload
  | ok data =>
    simp [loadImports, h] at hload
    simp [← hload]

theorem loadExports_not_hit {e : SessionCacheEntry} (h : e.exports = none) :
    ∀ r res, loadExports e r = Except.ok res → res.2.1 = false := by
  intro r res hload
  cases r with
  | error err => simp [loadExports, h] at hload
  | ok data =>
    simp [loadExports, h] at hload
    simp [← hload]

/-- After `deleteSessionCache`, the next `getSessionCache` hands out the
freshly-allocated empty entry. -/
theorem getSessionCache_after_delete {κ : Type} [DecidableEq κ] (c : ServerCache κ) (sid : κ) :
    (getSessionCache (deleteSessionCache c sid) sid).1 = SessionCacheEntry.empty := by
  simp [getSessionCache, deleteSessionCache, mapLookup_erase_self]

/-! # Claim theorems -/

/-- **C2.** After `make_function(S, addr)` returns success, the next
`get_functions(S)` read is a cache MISS, never a HIT; and after
`run_auto_analysis(S)` completes, all four per-session cache entries
(functions, imports, exports, strings) miss on their next read. -/
theorem C2_cache_invalidation {κ : Type} [DecidableEq κ] (c : ServerCache κ) (sid : κ)
    (success : Bool) (hsuccess : success = true) :
    (∀ r res, loadFunctions (getSessionCache (makeFunctionCacheEffect success c sid) sid).1 r
        = Except.ok res → res.2.1 = false) ∧
    (∀ r res, loadFunctions (getSessionCache (runAutoAnalysisCacheEffect c sid) sid).1 r
        = Except.ok res → res.2.1 = false) ∧
    (∀ r res, loadImports (getSessionCache (runAutoAnalysisCacheEffect c sid) sid).1 r
        = Except.ok res → res.2.1 = false) ∧
    (∀ r res, loadExports (getSessionCache (runAutoAnalysisCacheEffect c sid) sid).1 r
        = Except.ok res → res.2.1 = false) ∧
    (∀ r res, loadStrings (getSessionCache (runAutoAnalysisCacheEffect c sid) sid).1 r
        = Except.ok res → res.2.1 = false) := by
  subst hsuccess
  have hmk : (getSessionCache (makeFunctionCacheEffect true c sid) sid).1 =
      SessionCacheEntry.empty := by
    simpa [makeFunctionCacheEffect] using getSessionCache_after_delete c sid
  have hauto : (getSessionCache (runAutoAnalysisCacheEffect c sid) sid).1 =
      SessionCacheEntry.empty := by
    simpa [runAutoAnalysisCacheEffect] using getSessionCache_after_delete c sid
  rw [hmk, hauto]
  exact ⟨loadFunctions_not_hit rfl, loadFunctions_not_hit rfl, loadImports_not_hit rfl,
    loadExports_not_hit rfl, loadStrings_not_hit rfl⟩

theorem C2_cache_invalidation_witness :
    true = true ∧
    (∀ r res, loadFunctions
        (getSessionCache (makeFunctionCacheEffect true ([] : ServerCache String) "a1b2c3d4")
          "a1b2c3d4").1 r = Except.ok res → res.2.1 = false) :=
  ⟨rfl, (C2_cache_invalidation ([] : ServerCache String) "a1b2c3d4" true rfl).1⟩

/-- The strings loader materializes a nil slice when the worker's
enumeration is empty: the first chunk is already shorter than
`defaultPageLimit`, and appending it to the nil accumulator keeps it nil. -/
theorem fetchAllStrings_of_empty {α : Type} (w : Nat → Nat → List α)
    (hw : pagesCorrectly w []) (fuel : Nat) : fetchAllStrings w fuel = none := by
  cases fuel with
  | zero => rfl
  | succ n =>
    have h0 : w 0 1000 = [] := by simpa using hw 0 1000
    simp [fetchAllStrings, fetchAllStringsLoop, h0, goAppend, defaultPageLimit]

/-- **C9.** If the worker reports an empty enumeration, the per-session
cache never treats that entry as populated: the loader stores a nil slice,
leaving the entry unchanged, so every subsequent read of the corresponding
list tool is again a MISS that re-invokes the loader; an empty result is
never served as a cache HIT. -/
theorem C9_empty_enumeration_never_cached (e : SessionCacheEntry)
    (w : Nat → Nat → List GoStringItem) (fuel : Nat)
    (hw : pagesCorrectly w [])
    (hs : e.strings = none) (hf : e.functions = none) (hi : e.imports = none)
    (hx : e.exports = none) :
    (loadStrings e (Except.ok (fetchAllStrings w fuel)) = Except.ok (none, false, e)) ∧
    (loadFunctions e (Except.ok (decodeRepeated [])) = Except.ok (none, false, e)) ∧
    (loadImports e (Except.ok (decodeRepeated [])) = Except.ok (none, false, e)) ∧
    (loadExports e (Except.ok (decodeRepeated [])) = Except.ok (none, false, e)) ∧
    (∀ r res, loadStrings e r = Except.ok res → res.2.1 = false) ∧
    (∀ r res, loadFunctions e r = Except.ok res → res.2.1 = false) ∧
    (∀ r res, loadImports e r = Except.ok res → res.2.1 = false) ∧
    (∀ r res, loadExports e r = Except.ok res → res.2.1 = false) := by
  obtain ⟨es, ef, ei, ex⟩ := e
  simp only at hs hf hi hx
  subst hs hf hi hx
  refine ⟨?_, ?_, ?_, ?_, loadStrings_not_hit rfl, loadFunctions_not_hit rfl,
    loadImports_not_hit rfl, loadExports_not_hit rfl⟩
  · rw [fetchAllStrings_of_empty w hw fuel]
    rfl
  · rfl
  · rfl
  · rfl

/-- Loop invariant of `fetchAllStringsLoop`: with a correctly paging worker
and enough fuel, the loop returns the accumulator followed by everything
from the current offset on. -/
theorem fetchAllStringsLoop_elems {α : Type} (w : Nat → Nat → List α) (xs : List α)
    (hw : pagesCorrectly w xs) :
    ∀ fuel offset acc, xs.length + 1 ≤ fuel + offset →
      (fetchAllStringsLoop w fuel acc offset).elems = acc.elems ++ xs.drop offset := by
  intro fuel
  induction fuel with
  | zero =>
    intro offset acc h
    have hlen : xs.length ≤ offset := by omega
    simp [fetchAllStringsLoop, List.drop_eq_nil_of_le hlen]
  | succ n ih =>
    intro offset acc h
    have hdp : defaultPageLimit = 1000 := rfl
    have hchunk : w offset defaultPageLimit = (xs.drop offset).take defaultPageLimit :=
      hw offset defaultPageLimit
    have hchunklen : (w offset defaultPageLimit).length =
        min defaultPageLimit (xs.length - offset) := by
      rw [hchunk]
      simp [List.length_take]
    rw [fetchAllStringsLoop]
    by_cases hlast : (w offset defaultPageLimit).length < defaultPageLimit
    · have htake : (xs.drop offset).take defaultPageLimit = xs.drop offset := by
        apply List.take_of_length_le
        simp
        omega
      rw [if_pos hlast, goAppend_elems, hchunk, htake]
    · have hfull : (w offset defaultPageLimit).length = defaultPageLimit := by omega
      rw [if_neg hlast, ih (offset + (w offset defaultPageLimit).length) _ (by omega),
        goAppend_elems, List.append_assoc]
      congr 1
      rw [hfull, hchunk]
      have hdrop : xs.drop (offset + defaultPageLimit) =
          (xs.drop offset).drop defaultPageLimit := by
        rw [List.drop_drop, Nat.add_comm]
      rw [hdrop, List.take_append_drop]

/-- **C6.** The strings loader fetches the enumeration in chunks of
`defaultPageLimit = 1000` starting at offset 0, advancing the offset by
each returned chunk's length and stopping when a chunk is shorter than the
limit (that is what `fetchAllStringsLoop` is); for every worker whose
`GetStrings` pages correctly over an underlying list, the loader
materializes exactly that full list as one slice. -/
theorem C6_strings_loader_materializes_all {α : Type} (w : Nat → Nat → List α) (xs : List α)
    (fuel : Nat) (hw : pagesCorrectly w xs) (hfuel : xs.length + 1 ≤ fuel) :
    (fetchAllStrings w fuel).elems = xs := by
  have h := fetchAllStringsLoop_elems w xs hw fuel 0 none (by omega)
  simpa [fetchAllStrings, GoSlice.elems] using h

theorem C6_strings_loader_witness :
    pagesCorrectly
      (fun o l => (([⟨256, "alpha"⟩, ⟨512, "beta"⟩] : List GoStringItem).drop o).take l)
      [⟨256, "alpha"⟩, ⟨512, "beta"⟩] ∧
    ([⟨256, "alpha"⟩, ⟨512, "beta"⟩] : List GoStringItem).length + 1 ≤ 3 ∧
    (fetchAllStrings
      (fun o l => (([⟨256, "alpha"⟩, ⟨512, "beta"⟩] : List GoStringItem).drop o).take l)
      3).elems = [⟨256, "alpha"⟩, ⟨512, "beta"⟩] :=
  ⟨fun _ _ => rfl, by simp,
    C6_strings_loader_materializes_all
      (fun o l => (([⟨256, "alpha"⟩, ⟨512, "beta"⟩] : List GoStringItem).drop o).take l)
      [⟨256, "alpha"⟩, ⟨512, "beta"⟩] 3 (fun _ _ => rfl) (by simp)⟩

/-- **C3 (counterexample).** The claim says a limit above 10000 is capped;
the code instead rejects it: `normalizePagination(0, 20000)` is an
`InvalidArgument` error, not the capped page `(0, 10000)`. -/
theorem C3_limit_rejected_not_capped :
    normalizePagination 0 20000 = Except.error "limit must be <= 10000" ∧
    normalizePagination 0 20000 ≠ Except.ok (0, 10000) := by
  constructor
  · rfl
  · intro h
    norm_num [normalizePagination, maxPageLimit] at h
    exact Except.noConfusion h

/-- **C3 (as amended).** For every list tool and every enumeration (after
regex filtering) with total `N`: when `normalizePagination` accepts the
requested page (offset ≥ 0; limit defaulted to 1000 when not positive and
**rejected** — not capped — above 10000), the tool returns the items
`o .. min(o+L, N)` of the filtered enumeration in underlying order,
`count = len(items) ≤ L`, and `total = N` independently of the page
requested; filtering happens before slicing (the law is stated on the
filtered list `regexFilter` produces). -/
theorem C3_pagination_law {α : Type} (data : List α) (regex : String) (match_ : α → Bool)
    (offset limit o l : Int)
    (h : normalizePagination offset limit = Except.ok (o, l)) :
    listToolPage (regexFilter regex match_ data) offset limit =
      Except.ok (slicePage (regexFilter regex match_ data) o l) ∧
    (slicePage (regexFilter regex match_ data) o l).total =
      ((regexFilter regex match_ data).length : Int) ∧
    (slicePage (regexFilter regex match_ data) o l).items =
      ((regexFilter regex match_ data).drop o.toNat).take
        ((min (o + l) ((regexFilter regex match_ data).length : Int) - o).toNat) ∧
    (slicePage (regexFilter regex match_ data) o l).count =
      (((slicePage (regexFilter regex match_ data) o l).items.length : Int)) ∧
    (slicePage (regexFilter regex match_ data) o l).count ≤ l ∧
    (slicePage (regexFilter regex match_ data) o l).limit = l := by
  have hol : o = offset ∧ 0 ≤ o ∧ 1 ≤ l ∧ l ≤ 10000 := by
    simp only [normalizePagination, defaultPageLimit, maxPageLimit] at h
    split_ifs at h <;>
      simp only [Except.ok.injEq, Prod.mk.injEq, reduceCtorEq] at h <;>
      push_cast at * <;>
      omega
  obtain ⟨hoe, ho, hl1, hl2⟩ := hol
  set filtered := regexFilter regex match_ data with hfiltered
  set N : Int := (filtered.length : Int) with hN
  have hN0 : 0 ≤ N := by positivity
  refine ⟨?_, rfl, ?_, rfl, ?_, rfl⟩
  · unfold listToolPage
    rw [h]
    rfl
  · show (let total : Int := filtered.length
          let o' := if o > total then total else o
          let e := if o' + l > total then total else o' + l
          (filtered.drop o'.toNat).take (e - o').toNat) =
      (filtered.drop o.toNat).take ((min (o + l) N - o).toNat)
    simp only [← hN]
    by_cases hoN : o > N
    · rw [if_pos hoN, if_pos (by omega : N + l > N)]
      have hdrop : filtered.drop o.toNat = [] := by
        apply List.drop_eq_nil_of_le
        omega
      simp [hdrop]
    · rw [if_neg hoN]
      by_cases hel : o + l > N
      · rw [if_pos hel]
        congr 1
        omega
      · rw [if_neg hel]
        congr 1
        omega
  · show ((let total : Int := filtered.length
           let o' := if o > total then total else o
           let e := if o' + l > total then total else o' + l
           let items := (filtered.drop o'.toNat).take (e - o').toNat
           (items.length : Int)) : Int) ≤ l
    simp only [← hN, List.length_take, List.length_drop]
    by_cases hoN : o > N
    · rw [if_pos hoN, if_pos (by omega : N + l > N)]
      push_cast
      omega
    · rw [if_neg hoN]
      by_cases hel : o + l > N
      · rw [if_pos hel]
        push_cast
        omega
      · rw [if_neg hel]
        push_cast
        omega

theorem C3_pagination_law_witness :
    normalizePagination 0 1 = Except.ok (0, 1) ∧
    listToolPage (regexFilter "" (fun _ => true)
        ([⟨4096, "start"⟩, ⟨8192, "helper"⟩] : List GoFunction)) 0 1 =
      Except.ok (slicePage (regexFilter "" (fun _ => true)
        ([⟨4096, "start"⟩, ⟨8192, "helper"⟩] : List GoFunction)) 0 1) ∧
    (slicePage (regexFilter "" (fun _ => true)
        ([⟨4096, "start"⟩, ⟨8192, "helper"⟩] : List GoFunction)) 0 1).total = 2 ∧
    (slicePage (regexFilter "" (fun _ => true)
        ([⟨4096, "start"⟩, ⟨8192, "helper"⟩] : List GoFunction)) 0 1).items =
      [⟨4096, "start"⟩] ∧
    (slicePage (regexFilter "" (fun _ => true)
        ([⟨4096, "start"⟩, ⟨8192, "helper"⟩] : List GoFunction)) 0 1).count = 1 :=
  ⟨rfl,
    (C3_pagination_law ([⟨4096, "start"⟩, ⟨8192, "helper"⟩] : List GoFunction) ""
      (fun _ => true) 0 1 0 1 rfl).1,
    by rfl, by rfl, by rfl⟩

theorem C9_empty_enumeration_witness :
    pagesCorrectly (fun o l => (([] : List GoStringItem).drop o).take l) [] ∧
    SessionCacheEntry.empty.strings = none ∧
    (loadStrings SessionCacheEntry.empty
      (Except.ok (fetchAllStrings (fun o l => (([] : List GoStringItem).drop o).take l) 3)) =
      Except.ok (none, false, SessionCacheEntry.empty)) :=
  ⟨fun _ _ => rfl, rfl,
    (C9_empty_enumeration_never_cached SessionCacheEntry.empty
      (fun o l => (([] : List GoStringItem).drop o).take l) 3
      (fun _ _ => rfl) rfl rfl rfl rfl).1⟩

/-- **C7.** WebSocket envelope serialization round-trips: for every
envelope whose type is request, response, error or notification, with any
correlation id string and any opaque JSON payload subtrees, parsing the
serialized form yields the original envelope. -/
theorem C7_envelope_roundtrip (e : Envelope)
    (htype : e.type = "request" ∨ e.type = "response" ∨ e.type = "error" ∨
      e.type = "notification") :
    parseEnvelope (serializeEnvelope e) = some e := by
  obtain ⟨t, i, rq, rs, er, nt⟩ := e
  by_cases hi : i = "" <;>
    rcases rq with _ | rq <;> rcases rs with _ | rs <;> rcases er with _ | er <;>
      rcases nt with _ | nt <;>
    simp [serializeEnvelope, parseEnvelope, parseEnvelopeFields, Envelope.zero, hi]

theorem C7_envelope_roundtrip_witness :
    let e0 : Envelope :=
      { type := "request", id := "t1",
        request := some (Json.obj [("method", Json.str "tools/list")]),
        response := none, error := none, notification := none }
    (e0.type = "request" ∨ e0.type = "response" ∨ e0.type = "error" ∨
      e0.type = "notification") ∧
    parseEnvelope (serializeEnvelope e0) = some e0 :=
  ⟨Or.inl rfl,
    C7_envelope_roundtrip
      { type := "request", id := "t1",
        request := some (Json.obj [("method", Json.str "tools/list")]),
        response := none, error := none, notification := none } (Or.inl rfl)⟩

/-- **C8 (counterexample).** The error envelope emitted for a frame that
is not valid JSON carries "Failed to parse message JSON: %v" — the Go
parser's detail is appended, so the message is not the exact string
"Failed to parse message JSON" the claim states. -/
theorem C8_error_message_has_detail :
    processReceivedMessage (Except.error "unexpected end of JSON input")
      (fun _ => Except.error "unused") =
      [WsAction.enqueue (serializeEnvelope
        { type := "error", id := "", request := none, response := none,
          error := some (Json.obj [("message",
            Json.str "Failed to parse message JSON: unexpected end of JSON input")]),
          notification := none })] ∧
    "Failed to parse message JSON: unexpected end of JSON input" ≠
      "Failed to parse message JSON" :=
  ⟨rfl, by decide⟩

/-- **C8 (as amended).** For every WebSocket text or binary frame whose
bytes are not valid JSON, the server replies on that connection with a
single `type:"error"` envelope whose message is
"Failed to parse message JSON: " followed by the parser's detail (the
claimed text is a prefix of the message, not the whole message), and the
frame is never handed to the MCP server. -/
theorem C8_malformed_frame_rejected (kind : FrameKind) (detail : String)
    (mcpHandle : Option Json → Except String Json)
    (hkind : kind = FrameKind.text ∨ kind = FrameKind.binary) :
    handleFrame kind (Except.error detail) mcpHandle =
      [WsAction.enqueue (serializeEnvelope
        { type := "error", id := "", request := none, response := none,
          error := some (Json.obj [("message",
            Json.str ("Failed to parse message JSON: " ++ detail))]),
          notification := none })] ∧
    ∀ p, WsAction.callMcp p ∉ handleFrame kind (Except.error detail) mcpHandle := by
  unfold handleFrame
  rw [if_pos hkind]
  constructor
  · rfl
  · intro p hp
    simp [processReceivedMessage, sendErrorResponseToClient] at hp

/-- **C10.** On the reuse path of `open_binary` the response reports
`has_decompiler` as the constant `true`, irrespective of the decompiler
availability the worker reported when the session was first opened (the
worker outcome `w` is arbitrary and the registry stores no decompiler
flag), and the sessions table — in particular the reused session's
`last_activity` — is untouched by the call. -/
theorem C10_reuse_constant_decompiler (clean : String → String) (s : GwState)
    (path : String) (w : OpenOutcome) (sess : Sess)
    (hfind : regFindByBinaryPath clean s path = some sess) :
    (openBinary clean s path w).1 =
      OpenResult.reused sess.id sess.binaryPath true sess.createdAt ∧
    ((openBinary clean s path w).2).sessions = s.sessions := by
  simp [openBinary, hfind, recordProgressG]

theorem C10_reuse_constant_decompiler_witness :
    let sess0 : Sess := { id := 1, binaryPath := "/tmp/x", createdAt := 0, lastActivity := 0 }
    let s0 : GwState :=
      { nextId := 2, clock := 7, maxSessions := 10, sessions := [(1, sess0)],
        binaryIndex := [("/tmp/x", 1)], workers := [(1, { alive := true })],
        startLog := ["/tmp/x"], store := [1], cache := [], progress := [] }
    regFindByBinaryPath (fun p => p) s0 "/tmp/x" = some sess0 ∧
    (openBinary (fun p => p) s0 "/tmp/x"
      { startOk := true, rpcOk := true, openSuccess := true, hasDecompiler := false }).1 =
      OpenResult.reused 1 "/tmp/x" true 0 ∧
    ((openBinary (fun p => p) s0 "/tmp/x"
      { startOk := true, rpcOk := true, openSuccess := true, hasDecompiler := false }).2).sessions
      = s0.sessions := by
  intro sess0 s0
  have h := C10_reuse_constant_decompiler (fun p => p) s0 "/tmp/x"
    { startOk := true, rpcOk := true, openSuccess := true, hasDecompiler := false } sess0 rfl
  exact ⟨rfl, h.1, h.2⟩

/-- **C4 (counterexample).** The claim says the close-path cleanup still
happens when the session's worker process has already died.  But once the
worker has died and its monitor goroutine has reaped the handle,
`Manager.Stop` returns "no worker for session" and `closeBinary`
propagates that error without any cleanup: the first `close_binary` on
such a session does not return success and the session (with its persisted
metadata) remains registered. -/
theorem C4_dead_worker_close_fails :
    let opened := openBinary (fun p => p) (GwState.init 10) "/tmp/x"
      { startOk := true, rpcOk := true, openSuccess := true, hasDecompiler := true }
    let sDead := monitorReap (workerDie opened.2 1) 1
    (closeBinary sDead 1).1 = CloseResult.stopFailed ∧
    (closeBinary sDead 1).1 ≠ CloseResult.success ∧
    mapLookup (closeBinary sDead 1).2.sessions 1 ≠ none ∧
    (1 : Nat) ∈ (closeBinary sDead 1).2.store := by
  refine ⟨rfl, by decide, by decide, by decide⟩

/-- **C4 (as amended).** Calling `close_binary(S)` twice on a live session
S whose worker handle is still registered (whether or not the process is
still alive — `Manager.Stop` tolerates a dead process): the first call
returns success and removes the session together with its persisted
metadata, cache entry, progress snapshot and worker handle; the second
call fails with SessionNotFound.  (When the dead worker's handle has
already been reaped by the monitor goroutine, `close_binary` instead
returns the worker-stop error and performs no cleanup — see the
counterexample — and eviction is left to the watchdog.) -/
theorem C4_close_binary_idempotent (s : GwState) (sid : Nat) (sess : Sess) (h : Handle)
    (hsess : mapLookup s.sessions sid = some sess)
    (hworker : mapLookup s.workers sid = some h) :
    (closeBinary s sid).1 = CloseResult.success ∧
    mapLookup (closeBinary s sid).2.sessions sid = none ∧
    sid ∉ (closeBinary s sid).2.store ∧
    mapLookup (closeBinary s sid).2.cache sid = none ∧
    mapLookup (closeBinary s sid).2.progress sid = none ∧
    mapLookup (closeBinary s sid).2.workers sid = none ∧
    (closeBinary (closeBinary s sid).2 sid).1 = CloseResult.sessionNotFound := by
  refine ⟨?_, ?_, ?_, ?_, ?_, ?_, ?_⟩ <;>
    simp [closeBinary, mgrStop, hworker, hsess, regDelete, deleteSessionStateG,
      deleteSessionCacheG, deleteSessionCache, clearProgressG, mapLookup_erase_self,
      List.mem_filter]

theorem C4_close_binary_idempotent_witness :
    let sess0 : Sess := { id := 1, binaryPath := "/tmp/x", createdAt := 0, lastActivity := 0 }
    let s0 : GwState :=
      { nextId := 2, clock := 7, maxSessions := 10, sessions := [(1, sess0)],
        binaryIndex := [("/tmp/x", 1)], workers := [(1, { alive := false })],
        startLog := ["/tmp/x"], store := [1], cache := [(1, SessionCacheEntry.empty)],
        progress := [] }
    mapLookup s0.sessions 1 = some sess0 ∧
    mapLookup s0.workers 1 = some { alive := false } ∧
    ((closeBinary s0 1).1 = CloseResult.success ∧
     mapLookup (closeBinary s0 1).2.sessions 1 = none ∧
     (closeBinary (closeBinary s0 1).2 1).1 = CloseResult.sessionNotFound) := by
  intro sess0 s0
  have h := C4_close_binary_idempotent s0 1 sess0 { alive := false } rfl rfl
  exact ⟨rfl, rfl, h.1, h.2.1, h.2.2.2.2.2.2⟩

/-- **C5.** Cancelling the request context that initiated `open_binary`
after the spawn has returned never terminates the worker: the worker's
process context is created by `context.WithCancel(context.Background())`
(parented to Background, node 0, not to the request), so after cancelling
any request context the worker's context is still not done — the process
is not context-killed — and `GetClient(sessionID)` still returns the
handle. -/
theorem C5_worker_survives_request_cancel (w : CtxWorld) (m : MgrSessions) (sid : String)
    (reqCtx : Nat)
    (hreq1 : 1 ≤ reqCtx) (hreq2 : reqCtx < w.nextCtx)
    (hbg : mapLookup w.parentOf 0 = none)
    (hcancelled : ∀ c ∈ w.cancelled, 1 ≤ c ∧ c < w.nextCtx) :
    ctxDone (cancelCtx (mgrStartCtx w m sid).2.1 reqCtx) (mgrStartCtx w m sid).1 = false ∧
    mgrGetClientCtx (mgrStartCtx w m sid).2.2 sid = some (mgrStartCtx w m sid).1 := by
  obtain ⟨n, hn⟩ : ∃ n, w.nextCtx = n + 1 := ⟨w.nextCtx - 1, by omega⟩
  have hwc : (mgrStartCtx w m sid).1 = w.nextCtx := rfl
  have hpar : (cancelCtx (mgrStartCtx w m sid).2.1 reqCtx).parentOf =
      mapInsert w.parentOf w.nextCtx 0 := rfl
  have hcanc : (cancelCtx (mgrStartCtx w m sid).2.1 reqCtx).cancelled =
      reqCtx :: w.cancelled := rfl
  constructor
  · set w₂ := cancelCtx (mgrStartCtx w m sid).2.1 reqCtx with hw₂
    have hself : mapLookup w₂.parentOf w.nextCtx = some 0 := by
      rw [hpar]
      exact mapLookup_insert_self _ _ _
    have hzero : mapLookup w₂.parentOf 0 = none := by
      rw [hpar, mapLookup_insert_ne _ _ _ _ (by omega)]
      exact hbg
    have htail : ancestorChain w₂ n 0 = [0] := by
      cases n with
      | zero => rfl
      | succ k =>
        rw [ancestorChain, hzero]
    have hchain : ancestorChain w₂ w.nextCtx w.nextCtx = [w.nextCtx, 0] := by
      conv_lhs => rw [hn]
      rw [ancestorChain]
      rw [show mapLookup w₂.parentOf (n + 1) = some 0 from hn ▸ hself]
      show (n + 1) :: ancestorChain w₂ n 0 = [w.nextCtx, 0]
      rw [htail, hn]
    rw [hwc]
    unfold ctxDone
    rw [hchain]
    simp only [List.any_cons, List.any_nil, Bool.or_false, Bool.or_eq_false_iff,
      decide_eq_false_iff_not]
    refine ⟨?_, ?_⟩
    · rw [hcanc]
      intro hmem
      rcases List.mem_cons.mp hmem with hmem | hmem
      · omega
      · have := hcancelled _ hmem
        omega
    · rw [hcanc]
      intro hmem
      rcases List.mem_cons.mp hmem with hmem | hmem
      · omega
      · have := hcancelled _ hmem
        omega
  · exact mapLookup_insert_self _ _ _

theorem C5_worker_survives_request_cancel_witness :
    let w0 : CtxWorld := { nextCtx := 2, parentOf := [(1, 0)], cancelled := [] }
    (1 ≤ 1) ∧ (1 < w0.nextCtx) ∧ mapLookup w0.parentOf 0 = none ∧
    (∀ c ∈ w0.cancelled, 1 ≤ c ∧ c < w0.nextCtx) ∧
    (ctxDone (cancelCtx (mgrStartCtx w0 [] "a1b2c3d4").2.1 1) (mgrStartCtx w0 [] "a1b2c3d4").1
      = false ∧
     mgrGetClientCtx (mgrStartCtx w0 [] "a1b2c3d4").2.2 "a1b2c3d4" =
      some (mgrStartCtx w0 [] "a1b2c3d4").1) := by
  refine ⟨by omega, by decide, rfl, by simp, ?_⟩
  exact C5_worker_survives_request_cancel
    { nextCtx := 2, parentOf := [(1, 0)], cancelled := [] } [] "a1b2c3d4" 1
    (by omega) (by decide) rfl (by simp)

theorem C8_malformed_frame_rejected_witness :
    (FrameKind.text = FrameKind.text ∨ FrameKind.text = FrameKind.binary) ∧
    handleFrame FrameKind.text (Except.error "invalid character") (fun _ => Except.error "") =
      [WsAction.enqueue (serializeEnvelope
        { type := "error", id := "", request := none, response := none,
          error := some (Json.obj [("message",
            Json.str ("Failed to parse message JSON: " ++ "invalid character"))]),
          notification := none })] :=
  ⟨Or.inl rfl,
    (C8_malformed_frame_rejected FrameKind.text "invalid character"
      (fun _ => Except.error "") (Or.inl rfl)).1⟩

/-! ## C1: the registry view of every `open_binary` outcome -/

/-- A fresh `open_binary` (no session for the path yet, capacity available)
either fails — tearing the new session out of both indices again — or
succeeds and leaves it registered; either way the id counter advanced and
exactly one spawn for `p` was logged. -/
theorem openBinary_fresh_fields (clean : String → String) (s : GwState) (p : String)
    (w : OpenOutcome) (hfind : regFindByBinaryPath clean s p = none)
    (hcap : s.sessions.length < s.maxSessions) :
    (openBinary clean s p w).2.nextId = s.nextId + 1 ∧
    (openBinary clean s p w).2.startLog = s.startLog ++ [p] ∧
    (((openBinary clean s p w).2.sessions =
        mapErase (mapInsert s.sessions s.nextId (freshSess s (clean p))) s.nextId ∧
      (openBinary clean s p w).2.binaryIndex =
        mapErase (mapInsert s.binaryIndex (clean p) s.nextId) (clean p)) ∨
     ((openBinary clean s p w).2.sessions =
        mapInsert s.sessions s.nextId (freshSess s (clean p)) ∧
      (openBinary clean s p w).2.binaryIndex =
        mapInsert s.binaryIndex (clean p) s.nextId)) := by
  have hlooks : mapLookup (mapInsert s.sessions s.nextId (freshSess s (clean p))) s.nextId =
      some (freshSess s (clean p)) := mapLookup_insert_self _ _ _
  have hlookw : ∀ ws : List (Nat × Handle),
      mapLookup (mapInsert ws s.nextId { alive := true }) s.nextId =
        some { alive := true } := fun ws => mapLookup_insert_self _ _ _
  have hid : (freshSess s (clean p)).id = s.nextId := rfl
  unfold openBinary
  rw [hfind]
  unfold regCreate
  rw [if_neg (by omega)]
  simp only [hid]
  cases hstart : w.startOk with
  | false =>
    simp only [recordProgressG, mgrStart, hstart, Bool.false_eq_true, if_false,
      eq_self_iff_true, if_true, openFailCleanup, clearProgressG, deleteSessionCacheG,
      regDelete, hlooks]
    exact ⟨trivial, trivial, Or.inl ⟨trivial, rfl⟩⟩
  | true =>
    simp only [recordProgressG, mgrStart, hstart, if_true, Bool.true_eq_false, if_false,
      eq_self_iff_true, mgrGetClient, hlookw]
    cases hrpc : w.rpcOk with
    | false =>
      simp only [eq_self_iff_true, if_true, openFailCleanup, clearProgressG,
        deleteSessionCacheG, regDelete, applyStopIgnoringError, mgrStop, hlookw, hlooks]
      exact ⟨trivial, trivial, Or.inl ⟨trivial, rfl⟩⟩
    | true =>
      simp only [Bool.true_eq_false, if_false, eq_self_iff_true, if_true]
      cases hsucc : w.openSuccess with
      | false =>
        simp only [eq_self_iff_true, if_true, openFailCleanup, clearProgressG,
          deleteSessionCacheG, regDelete, applyStopIgnoringError, mgrStop, hlookw, hlooks]
        exact ⟨trivial, trivial, Or.inl ⟨trivial, rfl⟩⟩
      | true =>
        simp only [Bool.true_eq_false, if_false, persistSessionG, recordProgressG]
        exact ⟨trivial, trivial, Or.inr ⟨trivial, trivial⟩⟩

/-- The reuse branch leaves the registry view (id counter, sessions, path
index, start log) untouched: its only state change is a progress record. -/
theorem openBinary_reuse_fields (clean : String → String) (s : GwState) (p : String)
    (w : OpenOutcome) {existing : Sess}
    (hfind : regFindByBinaryPath clean s p = some existing) :
    (openBinary clean s p w).2.sessions = s.sessions ∧
    (openBinary clean s p w).2.binaryIndex = s.binaryIndex ∧
    (openBinary clean s p w).2.startLog = s.startLog ∧
    (openBinary clean s p w).2.nextId = s.nextId := by
  refine ⟨?_, ?_, ?_, ?_⟩ <;> simp [openBinary, hfind, recordProgressG]

/-- Every `open_binary` step preserves the C1 invariant. -/
theorem openInv_openBin (clean : String → String) {P₀ : String} {id₀ c₀ : Nat} {s : GwState}
    (hinv : OpenInv clean P₀ id₀ c₀ s) (p : String) (w : OpenOutcome) :
    OpenInv clean P₀ id₀ c₀ (openBinary clean s p w).2 := by
  cases hfind : regFindByBinaryPath clean s p with
  | some existing =>
    obtain ⟨hsess, hidx, hlog, hnext⟩ := openBinary_reuse_fields clean s p w hfind
    refine ⟨?_, ?_, ?_, ?_, ?_, ?_, ?_⟩
    · rw [hsess, hnext]; exact hinv.keysBound
    · rw [hsess]; exact hinv.keysNodup
    · rw [hnext]; exact hinv.idBound
    · rw [hidx]; exact hinv.indexed
    · rw [hsess]; exact hinv.stored
    · rw [hsess]; exact hinv.uniquePath
    · have hs := hinv.started
      unfold startCountNorm at hs ⊢
      rw [hlog]
      exact hs
  | none =>
    by_cases hcap : s.sessions.length ≥ s.maxSessions
    · have hstate : (openBinary clean s p w).2 = s := by
        simp [openBinary, hfind, regCreate, hcap]
      rw [hstate]
      exact hinv
    · have hne : clean p ≠ P₀ := by
        intro hEq
        obtain ⟨sess, hsess, _, _, _⟩ := hinv.stored
        unfold regFindByBinaryPath at hfind
        rw [hEq, hinv.indexed] at hfind
        simp [hsess] at hfind
      obtain ⟨hnext, hlog, hshape⟩ := openBinary_fresh_fields clean s p w hfind (by omega)
      have heraseN : mapErase s.sessions s.nextId = s.sessions :=
        mapErase_eq_self_of_forall (fun kv hkv => by have := hinv.keysBound kv hkv; omega)
      have hstarted : startCountNorm clean (openBinary clean s p w).2 P₀ = 1 := by
        have hs := hinv.started
        unfold startCountNorm at hs
        unfold startCountNorm
        rw [hlog, List.filter_append, List.length_append]
        have hone : (List.filter (fun q => decide (clean q = P₀)) [p]).length = 0 := by
          simp [List.filter, hne]
        omega
      rcases hshape with ⟨hsess, hidx⟩ | ⟨hsess, hidx⟩
      · have hsess' : (openBinary clean s p w).2.sessions = s.sessions := by
          rw [hsess, mapErase_insert_self, heraseN]
        refine ⟨?_, ?_, ?_, ?_, ?_, ?_, hstarted⟩
        · rw [hsess', hnext]
          intro kv hkv
          have := hinv.keysBound kv hkv
          omega
        · rw [hsess']; exact hinv.keysNodup
        · rw [hnext]
          have := hinv.idBound
          omega
        · rw [hidx, mapLookup_erase, if_neg (Ne.symm hne),
            mapLookup_insert_ne s.binaryIndex (clean p) P₀ s.nextId (Ne.symm hne)]
          exact hinv.indexed
        · rw [hsess']; exact hinv.stored
        · rw [hsess']; exact hinv.uniquePath
      · refine ⟨?_, ?_, ?_, ?_, ?_, ?_, hstarted⟩
        · rw [hsess, hnext]
          intro kv hkv
          rcases mem_mapInsert hkv with hold | hnew
          · have := hinv.keysBound kv hold
            omega
          · have : kv.1 = s.nextId := by rw [hnew]
            omega
        · rw [hsess]; exact keysNodup_mapInsert _ _ hinv.keysNodup
        · rw [hnext]
          have := hinv.idBound
          omega
        · rw [hidx, mapLookup_insert_ne s.binaryIndex (clean p) P₀ s.nextId (Ne.symm hne)]
          exact hinv.indexed
        · rw [hsess, mapLookup_insert_ne s.sessions s.nextId id₀ (freshSess s (clean p))
            (by have := hinv.idBound; omega)]
          exact hinv.stored
        · rw [show countPathList (openBinary clean s p w).2.sessions P₀ =
              countPathList (mapInsert s.sessions s.nextId (freshSess s (clean p))) P₀ from
              by rw [hsess]]
          rw [countPathList_mapInsert, heraseN, if_neg (by simpa [freshSess] using hne)]
          have := hinv.uniquePath
          omega

/-- Every non-`close_binary` tool step (a `Touch`) preserves the C1
invariant. -/
theorem openInv_tool (clean : String → String) {P₀ : String} {id₀ c₀ : Nat} {s : GwState}
    (hinv : OpenInv clean P₀ id₀ c₀ s) (sid : Nat) :
    OpenInv clean P₀ id₀ c₀ (touchSession s sid) := by
  unfold touchSession
  cases hl : mapLookup s.sessions sid with
  | none => exact hinv
  | some sess =>
    refine ⟨?_, ?_, hinv.idBound, hinv.indexed, ?_, ?_, hinv.started⟩
    · intro kv hkv
      rcases mem_mapInsert hkv with hold | hnew
      · exact hinv.keysBound kv hold
      · have hmem := mapLookup_some_mem hl
        have hlt := hinv.keysBound (sid, sess) hmem
        have h1 : kv.1 = sid := by rw [hnew]
        simpa [h1] using hlt
    · exact keysNodup_mapInsert _ _ hinv.keysNodup
    · obtain ⟨sess₀, hsess₀, hf1, hf2, hf3⟩ := hinv.stored
      by_cases hsid : id₀ = sid
      · subst hsid
        rw [hl] at hsess₀
        have hEq : sess = sess₀ := Option.some.inj hsess₀
        subst hEq
        exact ⟨{ sess with lastActivity := s.clock }, mapLookup_insert_self _ _ _,
          hf1, hf2, hf3⟩
      · exact ⟨sess₀, by
          rw [mapLookup_insert_ne s.sessions sid id₀
            { sess with lastActivity := s.clock } hsid]
          exact hsess₀, hf1, hf2, hf3⟩
    · have h1 := countPathList_mapErase_lookup P₀ hinv.keysNodup hl
      have h2 := countPathList_mapInsert s.sessions sid
        { sess with lastActivity := s.clock } P₀
      have hu := hinv.uniquePath
      have hpath : ({ sess with lastActivity := s.clock } : Sess).binaryPath =
          sess.binaryPath := rfl
      rw [h2, hpath]
      by_cases hp : sess.binaryPath = P₀
      · rw [if_pos hp] at h1 ⊢
        omega
      · rw [if_neg hp] at h1 ⊢
        omega

/-- The C1 invariant is preserved along every trace of `open_binary` and
non-`close_binary` tool events. -/
theorem openInv_run (clean : String → String) {P₀ : String} {id₀ c₀ : Nat} {s : GwState}
    (hinv : OpenInv clean P₀ id₀ c₀ s) (evs : List GwEv) :
    OpenInv clean P₀ id₀ c₀ (gwRun clean s evs) := by
  induction evs generalizing s with
  | nil => exact hinv
  | cons ev rest ih =>
    cases ev with
    | openBin p w => exact ih (openInv_openBin clean hinv p w)
    | tool sid => exact ih (openInv_tool clean hinv sid)

/-- In any state satisfying the C1 invariant, `open_binary` for any path
normalizing to `P₀` answers on the reuse branch with the first session's
id, its stored path/creation time, `has_decompiler:true` and `reused:true`. -/
theorem openBinary_reuse_of_inv (clean : String → String) {P₀ : String} {id₀ c₀ : Nat}
    {s : GwState} (hinv : OpenInv clean P₀ id₀ c₀ s) (P' : String) (w : OpenOutcome)
    (hP : clean P' = P₀) :
    (openBinary clean s P' w).1 = OpenResult.reused id₀ P₀ true c₀ := by
  obtain ⟨sess, hsess, hf1, hf2, hf3⟩ := hinv.stored
  have hfind : regFindByBinaryPath clean s P' = some sess := by
    unfold regFindByBinaryPath
    rw [hP, hinv.indexed]
    exact hsess
  rw [← hf1, ← hf2, ← hf3]
  simp [openBinary, hfind]

/-- A fully-successful fresh `open_binary`: the `opened` response carries
the fresh id, the raw path, the worker's decompiler flag and the creation
time; the session is registered in both indices and one spawn was logged. -/
theorem openBinary_fresh_ok (clean : String → String) (s : GwState) (p : String)
    (w : OpenOutcome) (hfind : regFindByBinaryPath clean s p = none)
    (hcap : s.sessions.length < s.maxSessions)
    (h1 : w.startOk = true) (h2 : w.rpcOk = true) (h3 : w.openSuccess = true) :
    (openBinary clean s p w).1 = OpenResult.opened s.nextId p w.hasDecompiler s.clock ∧
    (openBinary clean s p w).2.sessions =
      mapInsert s.sessions s.nextId (freshSess s (clean p)) ∧
    (openBinary clean s p w).2.binaryIndex = mapInsert s.binaryIndex (clean p) s.nextId ∧
    (openBinary clean s p w).2.nextId = s.nextId + 1 ∧
    (openBinary clean s p w).2.startLog = s.startLog ++ [p] := by
  have hid : (freshSess s (clean p)).id = s.nextId := rfl
  have hlookw : ∀ ws : List (Nat × Handle),
      mapLookup (mapInsert ws s.nextId { alive := true }) s.nextId =
        some { alive := true } := fun ws => mapLookup_insert_self _ _ _
  unfold openBinary
  rw [hfind]
  unfold regCreate
  rw [if_neg (by omega)]
  simp only [hid, recordProgressG, mgrStart, h1, if_true, Bool.true_eq_false, if_false,
    eq_self_iff_true, mgrGetClient, hlookw, h2, h3, persistSessionG]
  exact ⟨rfl, trivial, trivial, trivial, trivial⟩

/-- The first successful `open_binary(P)` from a fresh gateway establishes
the C1 invariant for session id 1 created at time 0. -/
theorem openInv_establish (clean : String → String) (P : String) (w : OpenOutcome)
    (maxS : Nat) (hcap : 1 ≤ maxS)
    (h1 : w.startOk = true) (h2 : w.rpcOk = true) (h3 : w.openSuccess = true) :
    OpenInv clean (clean P) 1 0 ((openBinary clean (GwState.init maxS) P w).2) := by
  obtain ⟨hres, hsess, hidx, hnext, hlog⟩ :=
    openBinary_fresh_ok clean (GwState.init maxS) P w rfl
      (by simp only [GwState.init, List.length_nil]; omega) h1 h2 h3
  refine ⟨?_, ?_, ?_, ?_, ?_, ?_, ?_⟩
  · rw [hsess, hnext]
    intro kv hkv
    rcases mem_mapInsert hkv with hold | hnew
    · simp [GwState.init] at hold
    · have h1' : kv.1 = 1 := by subst hnew; rfl
      simp [GwState.init, h1']
  · rw [hsess]
    simp [mapInsert, mapErase, GwState.init]
  · rw [hnext]
    simp [GwState.init]
  · rw [hidx]
    exact mapLookup_insert_self _ _ _
  · rw [hsess]
    exact ⟨freshSess (GwState.init maxS) (clean P), mapLookup_insert_self _ _ _,
      rfl, rfl, rfl⟩
  · rw [hsess]
    simp [mapInsert, mapErase, countPathList, GwState.init, freshSess]
  · have hs : startCountNorm clean (openBinary clean (GwState.init maxS) P w).2 (clean P) =
        (((GwState.init maxS).startLog ++ [P]).filter
          (fun q => decide (clean q = clean P))).length := by
      unfold startCountNorm
      rw [hlog]
    rw [hs]
    simp [GwState.init]

/-- **C1 (counterexample).** The claim asserts the one-session-per-path
invariant is preserved by every registry operation including
`Registry.Restore`; it is not.  Restore (registry.go 95-117) checks only
capacity and duplicate id — no binary-path dedup — so restoring a
persisted metadata whose normalized path matches a live session yields two
live sessions for that path: after a successful `open_binary("/tmp/x")`
(exactly one session for `/tmp/x`), restoring metadata for `/tmp/x` under
a different id succeeds and `list_sessions` now reports two. -/
theorem C1_restore_duplicates_path :
    countSessionsWithPath
      (openBinary (fun p => p) (GwState.init 10) "/tmp/x"
        { startOk := true, rpcOk := true, openSuccess := true, hasDecompiler := true }).2
      "/tmp/x" = 1 ∧
    (regRestore (fun p => p)
        (openBinary (fun p => p) (GwState.init 10) "/tmp/x"
          { startOk := true, rpcOk := true, openSuccess := true,
            hasDecompiler := true }).2
        { id := 7, binaryPath := "/tmp/x", createdAt := 0,
          lastActivity := 0 }).toOption.map
      (fun r => countSessionsWithPath r.2 "/tmp/x") = some 2 := by
  exact ⟨by decide, by decide⟩

/-- **C1 (as amended).** At most one live session exists per normalized
binary path, preserved by the operations the running gateway performs —
`open_binary`'s `FindByBinaryPath`-guarded Create, the Delete of its
failure paths, and the Touch of every other non-`close_binary` tool; the
invariant is *not* preserved by `Registry.Restore`, which does no
binary-path dedup (see the counterexample).  For any trace starting with a
successful `open_binary(P)` on a fresh gateway and continuing with
arbitrary `open_binary` calls and non-`close_binary` tools, the first open
answers `opened` with session id 1, `list_sessions` reports exactly one
session with the normalized path P, the worker manager's start-count for P
is 1, and every later `open_binary` of a path normalizing like P returns
the first session's id with `reused:true`. -/
theorem C1_unique_session_per_binary (clean : String → String) (P : String)
    (w₀ : OpenOutcome) (evs : List GwEv) (maxS : Nat)
    (hcap : 1 ≤ maxS)
    (h1 : w₀.startOk = true) (h2 : w₀.rpcOk = true) (h3 : w₀.openSuccess = true) :
    (openBinary clean (GwState.init maxS) P w₀).1 =
      OpenResult.opened 1 P w₀.hasDecompiler 0 ∧
    countSessionsWithPath
      (gwRun clean ((openBinary clean (GwState.init maxS) P w₀).2) evs) (clean P) = 1 ∧
    startCount clean
      (gwRun clean ((openBinary clean (GwState.init maxS) P w₀).2) evs) P = 1 ∧
    ∀ P' w', clean P' = clean P →
      (openBinary clean
        (gwRun clean ((openBinary clean (GwState.init maxS) P w₀).2) evs) P' w').1 =
        OpenResult.reused 1 (clean P) true 0 := by
  have hinv0 := openInv_establish clean P w₀ maxS hcap h1 h2 h3
  have hres := (openBinary_fresh_ok clean (GwState.init maxS) P w₀ rfl
    (by simp only [GwState.init, List.length_nil]; omega) h1 h2 h3).1
  have hinv := openInv_run clean hinv0 evs
  refine ⟨hres, hinv.uniquePath, hinv.started, ?_⟩
  intro P' w' hP'
  exact openBinary_reuse_of_inv clean hinv P' w' hP'

theorem C1_unique_session_per_binary_witness :
    let wAll : OpenOutcome :=
      { startOk := true, rpcOk := true, openSuccess := true, hasDecompiler := true }
    let evs : List GwEv :=
      [GwEv.tool 1, GwEv.openBin "/tmp/y" wAll, GwEv.openBin "/tmp/x" wAll]
    (1 ≤ 10) ∧ wAll.startOk = true ∧ wAll.rpcOk = true ∧ wAll.openSuccess = true ∧
    ((openBinary (fun p => p) (GwState.init 10) "/tmp/x" wAll).1 =
        OpenResult.opened 1 "/tmp/x" wAll.hasDecompiler 0 ∧
      countSessionsWithPath (gwRun (fun p => p)
        ((openBinary (fun p => p) (GwState.init 10) "/tmp/x" wAll).2) evs) "/tmp/x" = 1 ∧
      startCount (fun p => p) (gwRun (fun p => p)
        ((openBinary (fun p => p) (GwState.init 10) "/tmp/x" wAll).2) evs) "/tmp/x" = 1 ∧
      ∀ P' w', (fun p => p) P' = "/tmp/x" →
        (openBinary (fun p => p) (gwRun (fun p => p)
          ((openBinary (fun p => p) (GwState.init 10) "/tmp/x" wAll).2) evs) P' w').1 =
          OpenResult.reused 1 "/tmp/x" true 0) := by
  intro wAll evs
  exact ⟨by omega, rfl, rfl, rfl,
    C1_unique_session_per_binary (fun p => p) "/tmp/x" wAll evs 10 (by omega) rfl rfl rfl⟩

end IdaMcp
